import Mathlib

/-!
Verification of the cloneheroer ingestion pipeline (Go sources under
backend/internal/parser/parser.go, backend/internal/watcher/watcher.go,
backend/cmd/server/main.go) against its natural-language specification.

Text is modelled as `List Char` (the ASCII fragment that the heuristics
inspect).  Go string helpers (strings.TrimSpace, strings.ToLower,
strings.Contains, strings.HasPrefix, strings.Split) and the few regular
expressions used by parser.go are translated character by character.
Machine integers are modelled as `Nat` with the explicit 2^63-1 overflow
bound that strconv.Atoi / strconv.ParseInt enforce on 64-bit targets.
-/

namespace CloneHeroer

/-- Abbreviation: the character list of a string literal. -/
def str (s : String) : List Char := s.data

/-- unicode.IsSpace restricted to ASCII, as used by strings.TrimSpace:
space, tab, newline, vertical tab, form feed, carriage return. -/
def isSpaceChar (c : Char) : Bool :=
  c = ' ' || c = '\t' || c = '\n' || c = Char.ofNat 11 || c = Char.ofNat 12 || c = '\r'

/-- Drop leading space characters. -/
def trimLeft : List Char → List Char
  | [] => []
  | c :: cs => if isSpaceChar c then trimLeft cs else c :: cs

/-- strings.TrimSpace: drop leading and trailing space characters. -/
def trim (s : List Char) : List Char :=
  ((trimLeft ((trimLeft s).reverse)).reverse)

/-- ASCII lower-casing of one character (strings.ToLower on ASCII input). -/
def toLowerChar (c : Char) : Char :=
  if 'A' ≤ c ∧ c ≤ 'Z' then Char.ofNat (c.toNat + 32) else c

/-- strings.ToLower on ASCII input. -/
def toLowerStr (s : List Char) : List Char := s.map toLowerChar

/-- strings.HasPrefix: `pat` is a prefix of `s`. -/
def startsWith : List Char → List Char → Bool
  | [], _ => true
  | _ :: _, [] => false
  | p :: ps, c :: cs => p = c && startsWith ps cs

/-- strings.Contains: `pat` occurs as a contiguous substring of `s`. -/
def strContains (pat : List Char) : List Char → Bool
  | [] => pat.isEmpty
  | c :: cs => startsWith pat (c :: cs) || strContains pat cs

/-- Split a character list at newline characters (strings.Split s "\n"). -/
def splitLines : List Char → List (List Char)
  | [] => [[]]
  | c :: cs =>
    if c = '\n' then [] :: splitLines cs
    else
      match splitLines cs with
      | [] => [[c]]
      | l :: ls => (c :: l) :: ls

/-- parser.go filterEmpty: keep the lines whose trimmed form is non-empty
(the original, untrimmed line is kept). -/
def filterEmpty (lines : List (List Char)) : List (List Char) :=
  lines.filter (fun l => !(trim l).isEmpty)

/-- ASCII decimal digit test (regexp \d). -/
def isDigitChar (c : Char) : Bool := '0' ≤ c ∧ c ≤ '9'

/-- Numeric value of a decimal digit character. -/
def digitVal (c : Char) : Nat := c.toNat - '0'.toNat

/-- Value of a string of decimal digits. -/
def natOfDigits (s : List Char) : Nat :=
  s.foldl (fun n c => n * 10 + digitVal c) 0

/-- Largest value representable by Go's 64-bit int. -/
def maxInt64 : Nat := 2 ^ 63 - 1

/-- strconv.Atoi / strconv.ParseInt(s, 10, 64) on a string of decimal
digits: fails on the empty string or on overflow past 2^63-1. -/
def atoi64 (s : List Char) : Option Nat :=
  if s ≠ [] ∧ s.all isDigitChar ∧ natOfDigits s ≤ maxInt64 then some (natOfDigits s)
  else none

/-- First match of the regexp (\d+) in `s`: the leftmost maximal digit run. -/
def firstDigitRun : List Char → Option (List Char)
  | [] => none
  | c :: cs => if isDigitChar c then some (c :: cs.takeWhile isDigitChar) else firstDigitRun cs

/-- regexp [^\d] replaced by "": keep only the digit characters. -/
def keepDigits (s : List Char) : List Char := s.filter isDigitChar

/-- filepath.Ext on a base name (no path separators): the suffix starting at
the last dot, empty if there is no dot. -/
def extOf (s : List Char) : List Char :=
  if '.' ∈ s then '.' :: (s.reverse.takeWhile (fun c => c ≠ '.')).reverse else []

/-- strings.TrimSuffix(filename, filepath.Ext(filename)): drop the extension.
`extOf s` is always a suffix of `s`, so this is a plain truncation. -/
def stripExt (s : List Char) : List Char :=
  s.take (s.length - (extOf s).length)

/-- First match of the regexp (\d{14}): the 14-character window at the
leftmost position from which 14 consecutive digits can be read.  A digit
run longer than 14 also matches, through its first 14 characters. -/
def find14Digits : List Char → Option (List Char)
  | [] => none
  | c :: cs =>
    if 14 ≤ (c :: cs).length ∧ ((c :: cs).take 14).all isDigitChar then
      some ((c :: cs).take 14)
    else find14Digits cs

/-- A calendar instant, the result of Go's time.Parse. -/
structure DateTime where
  year : Nat
  month : Nat
  day : Nat
  hour : Nat
  minute : Nat
  second : Nat
deriving DecidableEq

/-- Gregorian leap-year rule, as in Go's time package. -/
def isLeapYear (y : Nat) : Bool :=
  y % 4 = 0 && (y % 100 ≠ 0 || y % 400 = 0)

/-- Number of days in a month, as validated by time.Parse. -/
def daysInMonth (y m : Nat) : Nat :=
  if m = 2 then (if isLeapYear y then 29 else 28)
  else if m = 4 ∨ m = 6 ∨ m = 9 ∨ m = 11 then 30
  else 31

/-- time.Parse("20060102150405", s) on a 14-digit string: split into
yyyy MM dd HH mm ss and validate each field's range. -/
def parseTimestamp14 (s : List Char) : Option DateTime :=
  if s.length = 14 ∧ s.all isDigitChar then
    let y := natOfDigits (s.take 4)
    let mo := natOfDigits ((s.drop 4).take 2)
    let d := natOfDigits ((s.drop 6).take 2)
    let h := natOfDigits ((s.drop 8).take 2)
    let mi := natOfDigits ((s.drop 10).take 2)
    let se := natOfDigits ((s.drop 12).take 2)
    if 1 ≤ mo ∧ mo ≤ 12 ∧ 1 ≤ d ∧ d ≤ daysInMonth y mo ∧ h ≤ 23 ∧ mi ≤ 59 ∧ se ≤ 59 then
      some ⟨y, mo, d, h, mi, se⟩
    else none
  else none

/-- parser.go parseTimestampFromFilename: strip the extension, find the
first (\d{14}) match, parse it as yyyyMMddHHmmss. -/
def parseTimestampFromFilename (filename : List Char) : Option DateTime :=
  match find14Digits (stripExt filename) with
  | none => none
  | some w => parseTimestamp14 w

/-- ParseImage's createdAt computation (parser.go lines 126-138): the
filename timestamp when it parses, otherwise the file modification time
(the file is readable at this point, so Stat succeeds). -/
def resolveCreatedAt (filename : List Char) (modTime : DateTime) : DateTime :=
  match parseTimestampFromFilename filename with
  | some t => t
  | none => modTime

/-! ### Player-block extraction (parser.go extractPlayers and helpers) -/

/-- The regexp character class [,\s]: RE2's Perl class \s is
[\t\n\f\r ], plus the literal comma. -/
def isGroupSep (c : Char) : Bool :=
  c = ',' || c = ' ' || c = '\t' || c = '\n' || c = Char.ofNat 12 || c = '\r'

/-- DFA run for the anchored regexp ^\d+([,\s]\d+)*$ .
States: 0 = start (nothing read), 1 = inside a digit run (accepting),
2 = just after a separator (a digit must follow), 3 = dead. -/
def numericStep (q : Nat) (c : Char) : Nat :=
  if q = 0 then (if isDigitChar c then 1 else 3)
  else if q = 1 then (if isDigitChar c then 1 else if isGroupSep c then 2 else 3)
  else if q = 2 then (if isDigitChar c then 1 else 3)
  else 3

/-- parser.go isNumeric: the trimmed line matches ^\d+([,\s]\d+)*$ . -/
def isNumeric (s : List Char) : Bool :=
  (trim s).foldl numericStep 0 = 1

/-- Match of (\d+\.?\d*)% anchored at the start of `s`: a greedy digit run,
an optional dot, a greedy digit run, then the literal percent sign.  For
this pattern greedy matching without backtracking is exact, because every
shorter choice leaves the next character a digit or the dot, never '%'.
Returns the captured group. -/
def percentAt (s : List Char) : Option (List Char) :=
  let ds := s.takeWhile isDigitChar
  if ds.isEmpty then none
  else
    match s.drop ds.length with
    | '.' :: r2 =>
      let fs := r2.takeWhile isDigitChar
      (match r2.drop fs.length with
       | '%' :: _ => some (ds ++ '.' :: fs)
       | _ => none)
    | '%' :: _ => some ds
    | _ => none

/-- First match of (\d+\.?\d*)% in `s` (leftmost starting position). -/
def firstPercentMatch : List Char → Option (List Char)
  | [] => none
  | c :: cs =>
    match percentAt (c :: cs) with
    | some m => some m
    | none => firstPercentMatch cs

/-- Exact value of a decimal literal "ds.fs", as the fraction
numerator / denominator with denominator a power of ten; models the
float64 produced by strconv.ParseFloat (the decimals of interest are
exactly representable). -/
def decimalOfCapture (cap : List Char) : Nat × Nat :=
  let ds := cap.takeWhile (fun c => c ≠ '.')
  let fs := (cap.drop ds.length).drop 1
  (natOfDigits ds * 10 ^ fs.length + natOfDigits fs, 10 ^ fs.length)

/-- db.Player, with only the fields extractPlayers writes. -/
structure Player where
  name : List Char
  difficulty : Option (List Char)
  score : Option Nat
  accuracy : Option (Nat × Nat)
  misses : Option Nat
  combo : Option Nat
deriving DecidableEq

/-- The zero value of db.Player{}. -/
def emptyPlayer : Player := ⟨[], none, none, none, none, none⟩

/-- parser.go normalizeDifficulty: keyword search on the lower-cased line,
priority expert > hard > medium > easy; otherwise the input unchanged. -/
def normalizeDifficulty (s : List Char) : List Char :=
  let lower := toLowerStr s
  if strContains (str "expert") lower then str "Expert"
  else if strContains (str "hard") lower then str "Hard"
  else if strContains (str "medium") lower then str "Medium"
  else if strContains (str "easy") lower then str "Easy"
  else s

/-- extractPlayers' difficulty-line test (parser.go lines 423-426). -/
def hasDiffKeyword (lower : List Char) : Bool :=
  strContains (str "easy") lower || strContains (str "medium") lower ||
  strContains (str "hard") lower || strContains (str "expert") lower

/-- parser.go isPlayerSeparator: trimmed-empty line or trimmed line
starting with "---". -/
def isPlayerSeparator (s : List Char) : Bool :=
  (trim s).isEmpty || startsWith (str "---") (trim s)

/-- Score rule (parser.go lines 433-442): a purely numeric line whose
digits number more than 3 sets the score, only if it is still unset. -/
def scoreRule (line : List Char) (cur : Player) : Player :=
  if isNumeric line then
    let cleaned := keepDigits line
    if 3 < cleaned.length then
      match atoi64 cleaned with
      | some v => (match cur.score with
        | none => { cur with score := some v }
        | some _ => cur)
      | none => cur
    else cur
  else cur

/-- Accuracy rule (parser.go lines 445-453): a line containing '%' sets the
accuracy (unconditionally) to the decimal captured before the percent sign. -/
def accuracyRule (line : List Char) (cur : Player) : Player :=
  if strContains (str "%") line then
    match firstPercentMatch line with
    | some cap => { cur with accuracy := some (decimalOfCapture cap) }
    | none => cur
  else cur

/-- Misses rule (parser.go lines 456-464): a line containing "miss"
(case-insensitive) sets misses (unconditionally) to its first integer. -/
def missesRule (line : List Char) (cur : Player) : Player :=
  if strContains (str "miss") (toLowerStr line) then
    match firstDigitRun line with
    | some run => (match atoi64 run with
      | some v => { cur with misses := some v }
      | none => cur)
    | none => cur
  else cur

/-- Combo rule (parser.go lines 467-476): a line containing "combo" or
"streak" (case-insensitive) sets combo (unconditionally) to its first
integer. -/
def comboRule (line : List Char) (cur : Player) : Player :=
  if strContains (str "combo") (toLowerStr line) || strContains (str "streak") (toLowerStr line) then
    match firstDigitRun line with
    | some run => (match atoi64 run with
      | some v => { cur with combo := some v }
      | none => cur)
    | none => cur
  else cur

/-- The four non-exclusive data rules, applied in source order to one line
that was not consumed by the name or difficulty branch. -/
def applyDataRules (line : List Char) (cur : Player) : Player :=
  comboRule line (missesRule line (accuracyRule line (scoreRule line cur)))

/-- The loop body of parser.go extractPlayers (lines 410-485) plus the
final append (lines 488-490).  Each iteration trims the line, skips it if
empty, runs the name and difficulty branches (which end the iteration),
otherwise runs the four data rules and then the close check: the block is
pushed when the accumulator has a name and this is the last line or the
line is a separator. -/
def extractPlayersGo : List (List Char) → Player → List Player
  | [], cur => if cur.name ≠ [] then [cur] else []
  | l :: rest, cur =>
    let line := trim l
    if line = [] then extractPlayersGo rest cur
    else if cur.name = [] ∧ ¬ isNumeric line then
      extractPlayersGo rest { cur with name := line }
    else if hasDiffKeyword (toLowerStr line) then
      extractPlayersGo rest { cur with difficulty := some (normalizeDifficulty line) }
    else
      let cur4 := applyDataRules line cur
      if cur4.name ≠ [] ∧ (rest = [] ∨ isPlayerSeparator line) then
        cur4 :: extractPlayersGo rest emptyPlayer
      else
        extractPlayersGo rest cur4

/-- parser.go extractPlayers on an already-split list of OCR lines:
filter out the blank lines, then run the grouping loop. -/
def extractPlayersLines (lines : List (List Char)) : List Player :=
  extractPlayersGo (filterEmpty lines) emptyPlayer

/-! ### Center-region extraction: stars (parser.go lines 359-381) -/

/-- The star branch of one loop iteration: if the lower-cased line contains
"star", its first embedded integer (when present and in Atoi range). -/
def starLineVal (line : List Char) : Option Nat :=
  if strContains (str "star") (toLowerStr line) then
    match firstDigitRun line with
    | some run => atoi64 run
    | none => none
  else none

/-- The single-character branch of one loop iteration: a line whose trimmed
form is one character that Atoi accepts, with value in [0,7]. -/
def singleCharVal (line : List Char) : Option Nat :=
  match trim line with
  | [c] => if isDigitChar c ∧ digitVal c ≤ 7 then some (digitVal c) else none
  | _ => none

/-- parser.go extractCenterInfo's star loop: per line, the star branch then
the single-character branch; the first branch that produces a value ends
the loop. -/
def extractStars : List (List Char) → Option Nat
  | [] => none
  | line :: rest =>
    match starLineVal line with
    | some v => some v
    | none =>
      match singleCharVal line with
      | some v => some v
      | none => extractStars rest

/-! ### ParseImage's post-extraction phase (parser.go lines 151-204) -/

/-- The record assembled by ParseImage (db.CreateScoreData, restricted to
the fields this phase writes). -/
structure ScoreData where
  artist : List Char
  songName : List Char
  totalScore : Option Nat
  stars : Option Nat
  players : List Player
  createdAt : DateTime
deriving DecidableEq

/-- ParseImage from line 151 on: given the OCR extraction results, compute
`hasData` and the missing-field list exactly as the source does, emit the
warning flag, and always return the assembled record (the function has no
error path after the image was loaded). -/
def parseImageCore (artist songName : List Char) (totalScore : Option Nat)
    (stars : Option Nat) (players : List Player) (createdAt : DateTime) :
    Except (List Char) (ScoreData × Bool) :=
  let hasData :=
    !(trim artist).isEmpty || !(trim songName).isEmpty ||
    totalScore.isSome || !players.isEmpty
  let missingFields :=
    (if (trim artist).isEmpty then [str "artist"] else []) ++
    (if (trim songName).isEmpty then [str "song name"] else []) ++
    (if totalScore.isSome then [] else [str "total score"]) ++
    (if players.isEmpty then [str "players"] else [])
  let warn := !hasData || 3 ≤ missingFields.length
  .ok (⟨artist, songName, totalScore, stars, players, createdAt⟩, warn)

/-! ### Region clipping and OCR invocation (parser.go cropImage, extractText) -/

/-- image.Rectangle.  image.Rect(x0,y0,x1,y1) canonicalises by swapping the
coordinates on each axis when they are inverted. -/
structure GoRect where
  x0 : Int
  y0 : Int
  x1 : Int
  y1 : Int
deriving DecidableEq

/-- image.Rect: the canonicalised rectangle. -/
def imageRect (x0 y0 x1 y1 : Int) : GoRect :=
  ⟨min x0 x1, min y0 y1, max x0 x1, max y0 y1⟩

/-- Rectangle width (image.Rectangle.Dx). -/
def GoRect.dx (r : GoRect) : Int := r.x1 - r.x0

/-- Rectangle height (image.Rectangle.Dy). -/
def GoRect.dy (r : GoRect) : Int := r.y1 - r.y0

/-- The result of parser.go cropImage on an image whose bounds are
[0,W]×[0,H] (true of every decoded or freshly allocated image here): the
four one-sidedly clamped coordinates, and the bounds of the RGBA image
allocated as image.Rect(0, 0, right-left, bottom-top). -/
structure CropResult where
  l : Int
  t : Int
  r : Int
  b : Int
  region : GoRect
deriving DecidableEq

/-- parser.go cropImage (lines 565-583): left and top are raised to at
least the image minimum (0), right and bottom lowered to at most the image
maximum (W, H); no other clamping is performed. -/
def cropImageModel (W H left top right bottom : Int) : CropResult :=
  let l := if left < 0 then 0 else left
  let t := if top < 0 then 0 else top
  let r := if right > W then W else right
  let b := if bottom > H then H else bottom
  ⟨l, t, r, b, imageRect 0 0 (r - l) (b - t)⟩

/-- parser.go extractText (lines 496-561) as a function of the region
bounds and an OCR oracle: a region with zero width or height yields the
empty string immediately; every internal failure path also returns the
empty string, so the function never returns an error. -/
def extractTextModel (ocr : Int → Int → List Char) (region : GoRect) : List Char :=
  if region.dx = 0 ∨ region.dy = 0 then [] else ocr region.dx region.dy

/-! ### Watcher: extension filter, image loader gate, handleFile routing -/

/-- watcher.go isImageFile (lines 449-452). -/
def isImageFile (filename : List Char) : Bool :=
  let ext := toLowerStr (extOf filename)
  ext = str ".png" || ext = str ".jpg" || ext = str ".jpeg" || ext = str ".webp"

/-- The extension gate at the top of parser.go loadImage (lines 227-232):
everything but ".png" (case-insensitive) is rejected before the file is
even opened, so ParseImage fails for such files. -/
def loadImageGate (path : List Char) : Except (List Char) Unit :=
  if toLowerStr (extOf path) ≠ str ".png" then
    .error (str "only PNG files are supported")
  else .ok ()

/-- Observable outcome of one watcher.go handleFile call (lines 401-441). -/
structure HandleOutcome where
  invoked : Bool
  movedToFailed : Bool
  movedToProcessed : Bool
  isError : Bool
deriving DecidableEq

/-- watcher.go handleFile, with the environment abstracted to booleans:
whether the path is already in the processed map, whether the file exists,
whether the callback fails, and whether the two terminal directories are
configured.  Relocations are modelled as succeeding. -/
def handleFileModel (alreadyProcessed fileExists cbFails processedDirSet failedDirSet : Bool) :
    HandleOutcome :=
  if alreadyProcessed then ⟨false, false, false, false⟩
  else if !fileExists then ⟨false, false, false, true⟩
  else if cbFails then ⟨true, failedDirSet, false, true⟩
  else ⟨true, false, processedDirSet, false⟩

/-! ### Watcher: the poll loop over ticks (watcher.go pollLoop, lines 166-212)

One tick reads the directory, and for each image-file entry that is not in
the processed map invokes handleFile; the entry is added to the processed
map only when handleFile succeeded.  handleFile itself re-checks the map,
checks existence, invokes the callback, and relocates the file to the
failed directory (callback error) or processed directory (success) when
that directory is configured.  The filesystem is modelled as the list of
paths in the watch directory; relocation removes the path and succeeds. -/

structure PollCfg where
  processedDirSet : Bool
  failedDirSet : Bool
  handlerOk : List Char → Bool

structure PollState where
  processedSet : List (List Char)
  dir : List (List Char)
  invoked : List (List Char)
deriving DecidableEq

/-- Processing of one directory entry inside the poll tick (watcher.go
lines 182-209 together with the handleFile call they make). -/
def processEntry (cfg : PollCfg) (s : PollState) (e : List Char) : PollState :=
  if e ∈ s.processedSet then s
  else if e ∉ s.dir then s
  else if cfg.handlerOk e then
    { processedSet := e :: s.processedSet,
      dir := if cfg.processedDirSet then s.dir.erase e else s.dir,
      invoked := s.invoked ++ [e] }
  else
    { s with
      dir := if cfg.failedDirSet then s.dir.erase e else s.dir,
      invoked := s.invoked ++ [e] }

/-- One poll tick: snapshot the directory listing, keep the image files,
process each entry in order. -/
def pollTick (cfg : PollCfg) (s : PollState) : PollState :=
  (s.dir.filter isImageFile).foldl (processEntry cfg) s

/-! ### Watcher: the dedup gate under concurrency (watcher.go pollLoop and
watchLoop, sections 166-212 and 215-264)

Both loops perform, for the same path: a read of the `processed` map, a
second read inside handleFile, the handler invocation, and — only after the
handler returned successfully — the write marking the path processed.  The
map is a plain Go map with no mutex, so these four steps of the two
goroutines interleave freely; each step is modelled as one atomic
transition, which is the most charitable reading of the unsynchronised
code.  For comparison, `atomicStep` models the gate the specification
demands: membership check and mark in one indivisible operation. -/

inductive WInstr where
  | check
  | invoke
  | mark
deriving DecidableEq

/-- The instruction sequence each discovery channel executes for one path:
the loop-level map read, handleFile's map read, the handler call, and the
map write on success. -/
def chanProg : List WInstr := [.check, .check, .invoke, .mark]

structure RaceState where
  handled : Bool
  count : Nat
  poll : List WInstr
  watch : List WInstr
deriving DecidableEq

/-- Run one instruction of a thread's program against the shared state;
a check that finds the path handled terminates the thread's program. -/
def runInstr (handled : Bool) (count : Nat) (prog : List WInstr) :
    Bool × Nat × List WInstr :=
  match prog with
  | [] => (handled, count, [])
  | i :: rest =>
    match i with
    | .check => if handled then (handled, count, []) else (handled, count, rest)
    | .invoke => (handled, count + 1, rest)
    | .mark => (true, count, rest)

/-- One scheduler step: `true` runs the poll loop's next instruction,
`false` the watch loop's. -/
def raceStep (s : RaceState) (pickPoll : Bool) : RaceState :=
  if pickPoll then
    let (h, c, p) := runInstr s.handled s.count s.poll
    { s with handled := h, count := c, poll := p }
  else
    let (h, c, p) := runInstr s.handled s.count s.watch
    { s with handled := h, count := c, watch := p }

/-- Run a schedule (a list of thread choices) from a state. -/
def raceRun (sched : List Bool) (s : RaceState) : RaceState :=
  sched.foldl raceStep s

/-- Both channels deliver the same path, starting from an empty map. -/
def raceInit : RaceState := ⟨false, 0, chanProg, chanProg⟩

/-- The interleaving in which both loops pass their map reads before either
has marked the path: poll checks twice, watch checks twice, then each
invokes the handler and marks. -/
def demoSchedule : List Bool :=
  [true, true, false, false, true, true, true, false, false, false]

/-- The gate the specification demands: one indivisible check-and-mark per
delivery.  A delivery on an unmarked path marks it and invokes the handler;
a delivery on a marked path does nothing. -/
def atomicStep (s : Bool × Nat) (_channel : Bool) : Bool × Nat :=
  if s.1 then s else (true, s.2 + 1)

/-- Deliveries of one path through any sequence of channels, with the
atomic check-and-mark gate. -/
def atomicRun (deliveries : List Bool) : Bool × Nat :=
  deliveries.foldl atomicStep (false, 0)

/-! ### Claim-side and characterisation definitions -/

/-- Number of missing items among artist, songName, totalScore, players
(the four items the warning condition counts). -/
def missingCount (artist songName : List Char) (totalScore : Option Nat)
    (players : List Player) : Nat :=
  (if trim artist = [] then 1 else 0) + (if trim songName = [] then 1 else 0) +
  (if totalScore = none then 1 else 0) + (if players = [] then 1 else 0)

/-- 14 consecutive digits can be read starting at position `i` of `s`. -/
def windowAt (s : List Char) (i : Nat) : Bool :=
  decide (14 ≤ (s.drop i).length) && ((s.drop i).take 14).all isDigitChar

/-- Lengths of the maximal digit runs of a string, given the length of the
run currently open. -/
def digitRunLengthsAux : List Char → Nat → List Nat
  | [], 0 => []
  | [], n + 1 => [n + 1]
  | c :: cs, n =>
    if isDigitChar c then digitRunLengthsAux cs (n + 1)
    else if n = 0 then digitRunLengthsAux cs 0
    else n :: digitRunLengthsAux cs 0

/-- Claim C4, modelled from the claim's words: the string contains a run of
exactly 14 consecutive digits, i.e. a maximal digit run of length 14. -/
def specExact14RunExists (s : List Char) : Bool :=
  14 ∈ digitRunLengthsAux s 0

/-- Claim C5, modelled from the claim's words: stars come from the first
line containing "star" (case-insensitive), as its first embedded integer;
only when no line contains "star" is the single-character fallback used. -/
def specStarsC5 (lines : List (List Char)) : Option Nat :=
  match lines.find? (fun l => strContains (str "star") (toLowerStr l)) with
  | some l => (firstDigitRun l).bind atoi64
  | none => lines.findSome? singleCharVal

/-- The value the score rule would contribute for one line, were the score
still unset. -/
def scoreValue (line : List Char) : Option Nat :=
  if isNumeric line then
    (if 3 < (keepDigits line).length then atoi64 (keepDigits line) else none)
  else none

/-- The value the accuracy rule contributes for one line. -/
def accuracyValue (line : List Char) : Option (Nat × Nat) :=
  if strContains (str "%") line then (firstPercentMatch line).map decimalOfCapture
  else none

/-- The value the misses rule contributes for one line. -/
def missesValue (line : List Char) : Option Nat :=
  if strContains (str "miss") (toLowerStr line) then (firstDigitRun line).bind atoi64
  else none

/-- The value the combo rule contributes for one line. -/
def comboValue (line : List Char) : Option Nat :=
  if strContains (str "combo") (toLowerStr line) || strContains (str "streak") (toLowerStr line) then
    (firstDigitRun line).bind atoi64
  else none

/-- The clipping guarantees of cropImage for a request whose one-sided
clamping produces a non-inverted rectangle: the sampled rectangle
[l,r]×[t,b] lies within [0,W]×[0,H], and the allocated region is the
non-negative rectangle (0,0)-(r-l, b-t), no larger than the image. -/
def cropClipped (W H left top right bottom : Int) : Prop :=
  let c := cropImageModel W H left top right bottom
  0 ≤ c.l ∧ c.l ≤ c.r ∧ c.r ≤ W ∧ 0 ≤ c.t ∧ c.t ≤ c.b ∧ c.b ≤ H ∧
  c.region = ⟨0, 0, c.r - c.l, c.b - c.t⟩ ∧ c.region.dx ≤ W ∧ c.region.dy ≤ H

/-! ## Theorems -/

/-! ### Helper lemmas -/

/-- Once the path is marked, further atomic deliveries change nothing. -/
theorem atomicRun_marked (ds : List Bool) (n : Nat) :
    ds.foldl atomicStep (true, n) = (true, n) := by
  induction ds with
  | nil => rfl
  | cons d ds ih => simpa [atomicStep] using ih

/-- C1: the claim's exactly-once guarantee fails on the code.  Both loops
read the unsynchronised `processed` map (once at loop level, once inside
handleFile) and write it only after the handler returned, so the
interleaving `demoSchedule` — both loops pass all their reads before
either's write — invokes the handler twice for the same path.  The second
conjunct shows the claim is right about the design it demands: with a
single atomic check-and-mark per delivery, any non-empty sequence of
deliveries through the two channels invokes the handler exactly once. -/
theorem dedup_gate_race :
    (raceRun demoSchedule raceInit).count = 2 ∧
    ∀ (c : Bool) (ds : List Bool), (atomicRun (c :: ds)).2 = 1 := by
  refine ⟨by decide, ?_⟩
  intro c ds
  show (List.foldl atomicStep (atomicStep (false, 0) c) ds).2 = 1
  have h1 : atomicStep (false, 0) c = (true, 1) := rfl
  rw [h1, atomicRun_marked]

/-- C3: after a successful image load, ParseImage always returns a record
carrying the extracted fields (missing OCR fields included), and the
diagnostic warning fires exactly when either all four of artist, songName,
totalScore, players are missing, or at least 3 of the four are missing. -/
theorem warn_condition_correct :
    ∀ (artist songName : List Char) (totalScore stars : Option Nat)
      (players : List Player) (createdAt : DateTime),
      ∃ warn : Bool,
        parseImageCore artist songName totalScore stars players createdAt =
          .ok (⟨artist, songName, totalScore, stars, players, createdAt⟩, warn) ∧
        (warn = true ↔
          ((trim artist = [] ∧ trim songName = [] ∧ totalScore = none ∧ players = []) ∨
            3 ≤ missingCount artist songName totalScore players)) := by
  intro a s ts st pl ca
  refine ⟨_, rfl, ?_⟩
  by_cases h1 : trim a = [] <;> by_cases h2 : trim s = [] <;> cases ts <;>
    cases pl <;>
    simp [parseImageCore, missingCount, h1, h2, List.isEmpty_iff]

/-- C5 counterexample: the code's star loop takes the first line matching
either branch, so the single-character line "7", which precedes the line
"Stars: 3", wins — whereas the claim (star lines take priority over the
fallback across the whole list, spec-modelled by specStarsC5) demands 3. -/
theorem stars_priority_counterexample :
    extractStars [str "7", str "Stars: 3"] = some 7 ∧
    specStarsC5 [str "7", str "Stars: 3"] = some 3 := by
  constructor <;> decide

/-- C5 amended: scanning the recognised lines in order, the first line that
matches either branch decides starsAchieved — a line containing "star"
(case-insensitive) through its first embedded integer, or a trimmed
single-character line whose value is an integer in [0,7]; the
single-character branch is tried on each line in turn, not only when no
line at all contains "star". -/
theorem stars_amended :
    ∀ lines, extractStars lines =
      lines.findSome? (fun l =>
        match starLineVal l with
        | some v => some v
        | none => singleCharVal l) := by
  intro lines
  induction lines with
  | nil => rfl
  | cons l rest ih =>
    simp only [extractStars, List.findSome?_cons]
    cases hl : starLineVal l with
    | some v => rfl
    | none =>
      cases hs : singleCharVal l with
      | some v => rfl
      | none => simpa using ih

/-- C10: every filename with extension .jpg, .jpeg or .webp
(case-insensitive) passes the watcher's candidate filter but is rejected by
the loader's PNG-only gate before decoding, so the callback fails and
handleFile — when a failed directory is configured — invokes the handler,
relocates the file there and reports the error; no ScoreRecord is
produced. -/
theorem extension_mismatch_routing :
    ∀ (name : List Char) (processedDirSet : Bool),
      (toLowerStr (extOf name) = str ".jpg" ∨ toLowerStr (extOf name) = str ".jpeg" ∨
        toLowerStr (extOf name) = str ".webp") →
      isImageFile name = true ∧
      loadImageGate name = .error (str "only PNG files are supported") ∧
      handleFileModel false true true processedDirSet true = ⟨true, true, false, true⟩ := by
  intro name pd h
  refine ⟨?_, ?_, rfl⟩
  · simp only [isImageFile]
    rcases h with h | h | h <;> rw [h] <;> decide
  · simp only [loadImageGate]
    rcases h with h | h | h <;> rw [h] <;> exact if_pos (by decide)

/-- Witness for the C10 theorem at the concrete candidate "shot.JPG". -/
theorem extension_mismatch_routing_witness :
    isImageFile (str "shot.JPG") = true ∧
    loadImageGate (str "shot.JPG") = .error (str "only PNG files are supported") ∧
    handleFileModel false true true false true = ⟨true, true, false, true⟩ :=
  extension_mismatch_routing (str "shot.JPG") false (Or.inl (by decide))

/-- The score rule only touches the score field, and only when unset. -/
theorem scoreRule_spec (line : List Char) (cur : Player) :
    scoreRule line cur =
      { cur with score := match cur.score with | some v => some v | none => scoreValue line } := by
  rcases cur with ⟨n, d, sc, acc, mi, co⟩
  unfold scoreRule scoreValue
  by_cases hn : isNumeric line <;> simp only [hn, if_true, if_false, Bool.false_eq_true]
  · by_cases hl : 3 < (keepDigits line).length <;> simp only [hl, if_true, if_false]
    · cases ha : atoi64 (keepDigits line) <;> cases sc <;> simp
    · cases sc <;> simp
  · cases sc <;> simp

/-- The accuracy rule only touches the accuracy field, overwriting it. -/
theorem accuracyRule_spec (line : List Char) (cur : Player) :
    accuracyRule line cur =
      { cur with accuracy :=
          match accuracyValue line with | some v => some v | none => cur.accuracy } := by
  rcases cur with ⟨n, d, sc, acc, mi, co⟩
  unfold accuracyRule accuracyValue
  by_cases hc : strContains (str "%") line <;> simp only [hc, if_true, if_false]
  · cases hm : firstPercentMatch line <;> simp
  · simp

/-- The misses rule only touches the misses field, overwriting it. -/
theorem missesRule_spec (line : List Char) (cur : Player) :
    missesRule line cur =
      { cur with misses :=
          match missesValue line with | some v => some v | none => cur.misses } := by
  rcases cur with ⟨n, d, sc, acc, mi, co⟩
  unfold missesRule missesValue
  by_cases hc : strContains (str "miss") (toLowerStr line) <;> simp only [hc, if_true, if_false]
  · cases hm : firstDigitRun line with
    | none => simp
    | some run => cases ha : atoi64 run <;> simp [ha]
  · simp

/-- The combo rule only touches the combo field, overwriting it. -/
theorem comboRule_spec (line : List Char) (cur : Player) :
    comboRule line cur =
      { cur with combo :=
          match comboValue line with | some v => some v | none => cur.combo } := by
  rcases cur with ⟨n, d, sc, acc, mi, co⟩
  unfold comboRule comboValue
  by_cases hc : strContains (str "combo") (toLowerStr line) || strContains (str "streak") (toLowerStr line) <;>
    simp only [hc, if_true, if_false]
  · cases hm : firstDigitRun line with
    | none => simp
    | some run => cases ha : atoi64 run <;> simp [ha]
  · simp

/-- The chained data rules never change the name. -/
theorem applyDataRules_name (line : List Char) (cur : Player) :
    (applyDataRules line cur).name = cur.name := by
  rcases cur with ⟨n, d, sc, acc, mi, co⟩
  rw [applyDataRules, scoreRule_spec, accuracyRule_spec, missesRule_spec, comboRule_spec]

/-- C6 counterexample: for the block ["Alice", "5% miss 3"], the line
"5% miss 3" contains both "%" and "miss", and the code sets both accuracy
(to 5) and misses (to 5) for it, whereas the claim — one classification rule
per line, accuracy before misses — demands that only accuracy be set. -/
theorem data_rules_counterexample :
    extractPlayersLines [str "Alice", str "5% miss 3"] =
      [⟨str "Alice", none, none, some (5, 1), some 5, none⟩] := by
  decide

/-- C6 amended: the name and difficulty branches are exclusive (they end
the line's processing), but the score, accuracy, misses and bestStreak
rules are four independent checks applied to the same line in source
order: each one reads and writes only its own field, so a single line
matching several of them sets several fields (score additionally only when
still unset; accuracy, misses and combo overwrite). -/
theorem data_rules_amended :
    ∀ (line : List Char) (cur : Player),
      (applyDataRules line cur).name = cur.name ∧
      (applyDataRules line cur).difficulty = cur.difficulty ∧
      (applyDataRules line cur).score =
        (match cur.score with | some v => some v | none => scoreValue line) ∧
      (applyDataRules line cur).accuracy =
        (match accuracyValue line with | some v => some v | none => cur.accuracy) ∧
      (applyDataRules line cur).misses =
        (match missesValue line with | some v => some v | none => cur.misses) ∧
      (applyDataRules line cur).combo =
        (match comboValue line with | some v => some v | none => cur.combo) := by
  intro line cur
  rcases cur with ⟨n, d, sc, acc, mi, co⟩
  rw [applyDataRules, scoreRule_spec, accuracyRule_spec, missesRule_spec, comboRule_spec]
  simp

/-- C7 counterexample: in the block ["Alice", "easy", "hard"] the first
difficulty line is "easy", so the claim demands difficulty "Easy"; the code
has no set-once guard and the later line overwrites it to "Hard". -/
theorem difficulty_overwrite_counterexample :
    extractPlayersLines [str "Alice", str "easy", str "hard"] =
      [⟨str "Alice", some (str "Hard"), none, none, none, none⟩] := by
  decide

/-- C7 amended: every line containing a difficulty keyword (once a name is
set) overwrites the accumulator's difficulty — the last such line in the
block wins, not the first — with the keyword normalized at priority
expert > hard > medium > easy, and text without a recognized keyword passes
through normalization unchanged. -/
theorem difficulty_amended :
    (∀ (l : List Char) (rest : List (List Char)) (cur : Player),
      cur.name ≠ [] → hasDiffKeyword (toLowerStr (trim l)) = true →
      extractPlayersGo (l :: rest) cur =
        extractPlayersGo rest { cur with difficulty := some (normalizeDifficulty (trim l)) }) ∧
    (∀ s, strContains (str "expert") (toLowerStr s) = true →
      normalizeDifficulty s = str "Expert") ∧
    (∀ s, strContains (str "expert") (toLowerStr s) = false →
      strContains (str "hard") (toLowerStr s) = true →
      normalizeDifficulty s = str "Hard") ∧
    (∀ s, strContains (str "expert") (toLowerStr s) = false →
      strContains (str "hard") (toLowerStr s) = false →
      strContains (str "medium") (toLowerStr s) = true →
      normalizeDifficulty s = str "Medium") ∧
    (∀ s, strContains (str "expert") (toLowerStr s) = false →
      strContains (str "hard") (toLowerStr s) = false →
      strContains (str "medium") (toLowerStr s) = false →
      strContains (str "easy") (toLowerStr s) = true →
      normalizeDifficulty s = str "Easy") ∧
    (∀ s, hasDiffKeyword (toLowerStr s) = false → normalizeDifficulty s = s) := by
  refine ⟨?_, ?_, ?_, ?_, ?_, ?_⟩
  · intro l rest cur h1 h2
    have hne : ¬ trim l = [] := by
      intro he
      rw [he] at h2
      exact absurd h2 (by decide)
    have h1' : ¬ (cur.name = [] ∧ ¬ isNumeric (trim l)) := fun hc => h1 hc.1
    simp only [extractPlayersGo, if_neg hne, if_neg h1', if_pos h2]
  · intro s h
    simp [normalizeDifficulty, h]
  · intro s h1 h2
    simp [normalizeDifficulty, h1, h2]
  · intro s h1 h2 h3
    simp [normalizeDifficulty, h1, h2, h3]
  · intro s h1 h2 h3 h4
    simp [normalizeDifficulty, h1, h2, h3, h4]
  · intro s h
    simp only [hasDiffKeyword, Bool.or_eq_false_iff] at h
    simp [normalizeDifficulty, h.1.1.2, h.1.2, h.2, h.1.1.1]

/-- Witness for the C7 amended theorem: the difficulty line "easy" in front
of an accumulator already named "Bob" overwrites its difficulty "Hard", and
the normalization facts at "ExPeRt", "hardly", "medium!", "easy come",
"Guitar". -/
theorem difficulty_amended_witness :
    (extractPlayersGo [str "easy"] ⟨str "Bob", some (str "Hard"), none, none, none, none⟩ =
      extractPlayersGo []
        ⟨str "Bob", some (normalizeDifficulty (trim (str "easy"))), none, none, none, none⟩) ∧
    normalizeDifficulty (str "ExPeRt") = str "Expert" ∧
    normalizeDifficulty (str "hardly") = str "Hard" ∧
    normalizeDifficulty (str "medium!") = str "Medium" ∧
    normalizeDifficulty (str "easy come") = str "Easy" ∧
    normalizeDifficulty (str "Guitar") = str "Guitar" :=
  ⟨difficulty_amended.1 (str "easy") [] ⟨str "Bob", some (str "Hard"), none, none, none, none⟩
      (by decide) (by decide),
   difficulty_amended.2.1 (str "ExPeRt") (by decide),
   difficulty_amended.2.2.1 (str "hardly") (by decide) (by decide),
   difficulty_amended.2.2.2.1 (str "medium!") (by decide) (by decide) (by decide),
   difficulty_amended.2.2.2.2.1 (str "easy come") (by decide) (by decide) (by decide) (by decide),
   difficulty_amended.2.2.2.2.2 (str "Guitar") (by decide)⟩

/-- Every player emitted by the grouping loop has a non-empty name: both
push sites are guarded by a name check. -/
theorem extractPlayersGo_name_ne :
    ∀ (lines : List (List Char)) (cur p : Player),
      p ∈ extractPlayersGo lines cur → p.name ≠ [] := by
  intro lines
  induction lines with
  | nil =>
    intro cur p hp
    simp only [extractPlayersGo] at hp
    split at hp
    · rename_i h
      rw [List.mem_singleton.mp hp]
      exact h
    · cases hp
  | cons l rest ih =>
    intro cur p hp
    simp only [extractPlayersGo] at hp
    split at hp
    · exact ih _ _ hp
    · split at hp
      · exact ih _ _ hp
      · split at hp
        · exact ih _ _ hp
        · split at hp
          · rename_i hcond
            rcases List.mem_cons.mp hp with rfl | hp'
            · exact hcond.1
            · exact ih _ _ hp'
          · exact ih _ _ hp

/-- C8 counterexample: in the stream ["Alice", " ", "Bob"], the
whitespace-only line is a separator by the code's own isPlayerSeparator and
it is reached while the name "Alice" is set, so the claim demands that a
block be pushed there and a second block ("Bob") at stream end — two
players.  The code removes the line in filterEmpty before grouping, folds
"Bob" into the still-open block scan, and emits a single player. -/
theorem blank_separator_counterexample :
    extractPlayersLines [str "Alice", str " ", str "Bob"] =
      [⟨str "Alice", none, none, none, none, none⟩] ∧
    isPlayerSeparator (str " ") = true := by
  constructor <;> decide

/-- C8 amended: blank and whitespace-only lines are removed by filterEmpty
before grouping and therefore never close a block; a block is pushed when a
trimmed line starting with "---" (and not containing a difficulty keyword)
is reached while a name is set, or at the end of the filtered stream while
a name is set; every emitted PlayerRecord has a non-empty name. -/
theorem blocks_amended :
    (∀ (lines : List (List Char)) (p : Player),
      p ∈ extractPlayersLines lines → p.name ≠ []) ∧
    (∀ (lines : List (List Char)) (l : List Char),
      l ∈ filterEmpty lines → trim l ≠ []) ∧
    (∀ (l : List Char) (rest : List (List Char)) (cur : Player),
      cur.name ≠ [] → trim l ≠ [] → isPlayerSeparator (trim l) = true →
      hasDiffKeyword (toLowerStr (trim l)) = false →
      extractPlayersGo (l :: rest) cur =
        applyDataRules (trim l) cur :: extractPlayersGo rest emptyPlayer) ∧
    (∀ cur : Player, cur.name ≠ [] → extractPlayersGo [] cur = [cur]) := by
  refine ⟨?_, ?_, ?_, ?_⟩
  · intro lines p hp
    exact extractPlayersGo_name_ne _ _ _ hp
  · intro lines l hl
    rw [filterEmpty, List.mem_filter] at hl
    simpa using hl.2
  · intro l rest cur h1 h2 h3 h4
    have h1' : ¬ (cur.name = [] ∧ ¬ isNumeric (trim l)) := fun hc => h1 hc.1
    have h4' : ¬ (hasDiffKeyword (toLowerStr (trim l)) = true) := by simp [h4]
    have hpush : (applyDataRules (trim l) cur).name ≠ [] ∧
        (rest = [] ∨ isPlayerSeparator (trim l) = true) :=
      ⟨by rw [applyDataRules_name]; exact h1, Or.inr h3⟩
    simp only [extractPlayersGo, if_neg h2, if_neg h1', if_neg h4', if_pos hpush]
  · intro cur h
    simp only [extractPlayersGo, if_pos h]

/-- Witness for the C8 amended theorem: the emitted players of a two-block
stream all have names; " x " survives filterEmpty; the separator line
"--- 9" pushes the open block named "Bob"; stream end flushes it too. -/
theorem blocks_amended_witness :
    (⟨str "Alice", none, none, none, none, none⟩ : Player).name ≠ [] ∧
    trim (str " x ") ≠ [] ∧
    (extractPlayersGo [str "--- 9"] ⟨str "Bob", none, none, none, none, none⟩ =
      applyDataRules (trim (str "--- 9")) ⟨str "Bob", none, none, none, none, none⟩ ::
        extractPlayersGo [] emptyPlayer) ∧
    extractPlayersGo [] ⟨str "Bob", none, none, none, none, none⟩ =
      [⟨str "Bob", none, none, none, none, none⟩] :=
  ⟨blocks_amended.1 [str "Alice"] ⟨str "Alice", none, none, none, none, none⟩ (by decide),
   blocks_amended.2.1 [str " x "] (str " x ") (by decide),
   blocks_amended.2.2.1 (str "--- 9") [] ⟨str "Bob", none, none, none, none, none⟩
     (by decide) (by decide) (by decide) (by decide),
   blocks_amended.2.2.2 ⟨str "Bob", none, none, none, none, none⟩ (by decide)⟩

/-- A successful (\d{14}) search returns the window at the leftmost
position from which 14 consecutive digits can be read — even when that
window sits inside a longer digit run. -/
theorem find14_some_char :
    ∀ (s w : List Char), find14Digits s = some w →
      ∃ i, windowAt s i = true ∧ w = (s.drop i).take 14 ∧
        ∀ j, j < i → windowAt s j = false := by
  intro s
  induction s with
  | nil => intro w h; exact Option.noConfusion h
  | cons c cs ih =>
    intro w h
    simp only [find14Digits] at h
    split at h
    · rename_i hcond
      refine ⟨0, ?_, (Option.some.inj h).symm, fun j hj => absurd hj (Nat.not_lt_zero j)⟩
      simp only [windowAt, List.drop_zero, hcond.2, Bool.and_true, decide_eq_true_eq]
      exact hcond.1
    · rename_i hcond
      obtain ⟨i, hw, hweq, hprev⟩ := ih w h
      refine ⟨i + 1, hw, hweq, ?_⟩
      intro j hj
      cases j with
      | zero =>
        cases hY : ((c :: cs).take 14).all isDigitChar
        · simp only [windowAt, List.drop_zero, hY, Bool.and_false]
        · have hA : ¬ (14 ≤ (c :: cs).length) := fun hA => hcond ⟨hA, hY⟩
          simp only [windowAt, List.drop_zero, decide_eq_false hA, Bool.false_and]
      | succ j' => exact hprev j' (Nat.lt_of_succ_lt_succ hj)

/-- A failed (\d{14}) search means no position of the string starts 14
consecutive digits. -/
theorem find14_none_all :
    ∀ s : List Char, find14Digits s = none → ∀ i, windowAt s i = false := by
  intro s
  induction s with
  | nil => intro _ i; simp [windowAt]
  | cons c cs ih =>
    intro h i
    simp only [find14Digits] at h
    split at h
    · exact Option.noConfusion h
    · rename_i hcond
      cases i with
      | zero =>
        cases hY : ((c :: cs).take 14).all isDigitChar
        · simp only [windowAt, List.drop_zero, hY, Bool.and_false]
        · have hA : ¬ (14 ≤ (c :: cs).length) := fun hA => hcond ⟨hA, hY⟩
          simp only [windowAt, List.drop_zero, decide_eq_false hA, Bool.false_and]
      | succ i' => exact ih h i'

/-- C4 counterexample: the extension-stripped name "202512120522310"
contains a run of 15 consecutive digits and hence no run of exactly 14
(spec-modelled by specExact14RunExists), so the claim demands failure; the
resolver succeeds, parsing the first 14 digits of the longer run. -/
theorem timestamp_exact_run_counterexample :
    parseTimestampFromFilename (str "202512120522310.png") =
      some ⟨2025, 12, 12, 5, 22, 31⟩ ∧
    specExact14RunExists (stripExt (str "202512120522310.png")) = false := by
  constructor <;> decide

/-- C4 amended: after the extension is removed, the resolver succeeds with
the instant encoded by the 14 digits read at the leftmost position from
which 14 consecutive digits can be read (a longer digit run qualifies
through its first 14 digits), interpreted as yyyyMMddHHmmss with field
ranges validated; it fails exactly when no such position exists or the 14
digits are not a valid date-time, and on failure the caller substitutes the
file modification time, so the record still carries a createdAt. -/
theorem timestamp_amended :
    (∀ (f : List Char) (m t : DateTime),
      parseTimestampFromFilename f = some t → resolveCreatedAt f m = t) ∧
    (∀ (f : List Char) (m : DateTime),
      parseTimestampFromFilename f = none → resolveCreatedAt f m = m) ∧
    (∀ (s w : List Char), find14Digits s = some w →
      ∃ i, windowAt s i = true ∧ w = (s.drop i).take 14 ∧
        ∀ j, j < i → windowAt s j = false) ∧
    (∀ s : List Char, find14Digits s = none → ∀ i, windowAt s i = false) := by
  refine ⟨?_, ?_, find14_some_char, find14_none_all⟩
  · intro f m t h
    simp [resolveCreatedAt, h]
  · intro f m h
    simp [resolveCreatedAt, h]

/-- Witness for the C4 amended theorem at concrete filenames: a filename
with an embedded timestamp resolves to it, "image.png" falls back to the
modification time, "ab20251212052231cd" has its window found at the
leftmost digit position, and "image" has no 14-digit window at all. -/
theorem timestamp_amended_witness :
    resolveCreatedAt (str "clonehero-X-20251212052231.png") ⟨1, 1, 1, 0, 0, 0⟩ =
      ⟨2025, 12, 12, 5, 22, 31⟩ ∧
    resolveCreatedAt (str "image.png") ⟨2024, 6, 1, 2, 3, 4⟩ = ⟨2024, 6, 1, 2, 3, 4⟩ ∧
    (∃ i, windowAt (str "ab20251212052231cd") i = true ∧
      str "20251212052231" = ((str "ab20251212052231cd").drop i).take 14 ∧
      ∀ j, j < i → windowAt (str "ab20251212052231cd") j = false) ∧
    (∀ i, windowAt (str "image") i = false) :=
  ⟨timestamp_amended.1 _ ⟨1, 1, 1, 0, 0, 0⟩ _ (by decide),
   timestamp_amended.2.1 _ ⟨2024, 6, 1, 2, 3, 4⟩ (by decide),
   timestamp_amended.2.2.1 _ _ (by decide),
   timestamp_amended.2.2.2 _ (by decide)⟩

/-- C9 counterexample: on a 10×10 image, the requested rectangle
(left,top,right,bottom) = (0,0,-3,5) — a negative right coordinate the
claim explicitly covers — is clipped to [0,10]×[0,10] only one-sidedly:
right stays at -3, the allocated rectangle image.Rect(0,0,-3,5)
canonicalises to (-3,0)-(0,5), whose Min.X = -3 lies outside [0,10] and
whose width is 3, not the zero area the claim demands (clipping
[0,-3]×[0,5] into the image bounds is empty). -/
theorem crop_clamp_counterexample :
    cropImageModel 10 10 0 0 (-3) 5 = ⟨0, 0, -3, 5, ⟨-3, 0, 0, 5⟩⟩ ∧
    (cropImageModel 10 10 0 0 (-3) 5).region.x0 < 0 ∧
    (cropImageModel 10 10 0 0 (-3) 5).region.dx = 3 := by
  refine ⟨by decide, by decide, by decide⟩

/-- C9 amended: cropImage clamps one-sidedly — left and top are raised to
at least 0, right and bottom lowered to at most W and H; whenever the
clamped rectangle is non-inverted (in particular for every request with
left ≤ right ≤ and top ≤ bottom that overlaps the coordinate ranges, such
as all negative-or-oversized requests with left ≤ right, 0 ≤ right,
left ≤ W, top ≤ bottom, 0 ≤ bottom, top ≤ H), the sampled rectangle and
the allocated region lie within [0,W]×[0,H]; a zero-area region is valid
and yields empty recognized text from extractText, never an error. -/
theorem crop_amended :
    (∀ W H left top right bottom : Int,
      0 ≤ W → 0 ≤ H → left ≤ right → top ≤ bottom → 0 ≤ right → left ≤ W →
      0 ≤ bottom → top ≤ H → cropClipped W H left top right bottom) ∧
    (∀ (ocr : Int → Int → List Char) (reg : GoRect),
      reg.dx = 0 ∨ reg.dy = 0 → extractTextModel ocr reg = []) := by
  constructor
  · intro W H left top right bottom hW hH h1 h2 h3 h4 h5 h6
    unfold cropClipped cropImageModel imageRect GoRect.dx GoRect.dy
    dsimp only
    split_ifs <;> simp only [GoRect.mk.injEq] <;> omega
  · intro ocr reg h
    rw [extractTextModel, if_pos h]

/-- Witness for the C9 amended theorem: the test suite's out-of-bounds
request (-10,-10,150,150) on a 100×100 image, and a zero-width region. -/
theorem crop_amended_witness :
    cropClipped 100 100 (-10) (-10) 150 150 ∧
    extractTextModel (fun _ _ => str "x") ⟨0, 0, 0, 5⟩ = [] :=
  ⟨crop_amended.1 100 100 (-10) (-10) 150 150 (by decide) (by decide) (by decide)
      (by decide) (by decide) (by decide) (by decide) (by decide),
   crop_amended.2 (fun _ _ => str "x") ⟨0, 0, 0, 5⟩ (Or.inl (by decide))⟩

/-- The processed set only grows. -/
theorem processEntry_processedSet_mono (cfg : PollCfg) (s : PollState) (e p : List Char)
    (h : p ∈ s.processedSet) : p ∈ (processEntry cfg s e).processedSet := by
  by_cases h1 : e ∈ s.processedSet
  · simp only [processEntry, if_pos h1]
    exact h
  · by_cases h2 : e ∉ s.dir
    · simp only [processEntry, if_neg h1, if_pos h2]
      exact h
    · by_cases h3 : cfg.handlerOk e = true
      · simp only [processEntry, if_neg h1, if_neg h2, if_pos h3]
        exact List.mem_cons_of_mem _ h
      · simp only [processEntry, if_neg h1, if_neg h2, if_neg h3]
        exact h

/-- A path already in the processed map is skipped outright. -/
theorem processEntry_skip (cfg : PollCfg) (s : PollState) (p : List Char)
    (h : p ∈ s.processedSet) : processEntry cfg s p = s := by
  unfold processEntry
  rw [if_pos h]

/-- Processing a different entry does not change p's invocation count. -/
theorem processEntry_count_ne (cfg : PollCfg) (s : PollState) (e p : List Char)
    (hne : e ≠ p) : (processEntry cfg s e).invoked.count p = s.invoked.count p := by
  have hne' : ¬ (p = e) := fun hh => hne hh.symm
  unfold processEntry
  split_ifs <;> simp [List.count_append, List.count_cons, hne']

/-- Invocation counts never decrease. -/
theorem processEntry_count_le (cfg : PollCfg) (s : PollState) (e p : List Char) :
    s.invoked.count p ≤ (processEntry cfg s e).invoked.count p := by
  unfold processEntry
  split_ifs <;> simp [List.count_append]

/-- A path whose handler fails stays in the directory when no failed
directory is configured, whatever entry is processed. -/
theorem processEntry_dir_keep (cfg : PollCfg) (s : PollState) (e p : List Char)
    (hok : cfg.handlerOk p = false) (hfd : cfg.failedDirSet = false)
    (h : p ∈ s.dir) : p ∈ (processEntry cfg s e).dir := by
  by_cases h1 : e ∈ s.processedSet
  · simp only [processEntry, if_pos h1]
    exact h
  · by_cases h2 : e ∉ s.dir
    · simp only [processEntry, if_neg h1, if_pos h2]
      exact h
    · by_cases h3 : cfg.handlerOk e = true
      · have hne : p ≠ e := fun hpe => by
          rw [← hpe] at h3
          rw [hok] at h3
          exact Bool.noConfusion h3
        simp only [processEntry, if_neg h1, if_neg h2, if_pos h3]
        by_cases hpd : cfg.processedDirSet = true
        · simp only [if_pos hpd]
          exact (List.mem_erase_of_ne hne).mpr h
        · simp only [if_neg hpd]
          exact h
      · simp only [processEntry, if_neg h1, if_neg h2, if_neg h3, hfd,
          Bool.false_eq_true, if_false]
        exact h

/-- A path whose handler fails is never added to the processed map. -/
theorem processEntry_not_marked (cfg : PollCfg) (s : PollState) (e p : List Char)
    (hok : cfg.handlerOk p = false) (h : p ∉ s.processedSet) :
    p ∉ (processEntry cfg s e).processedSet := by
  by_cases h1 : e ∈ s.processedSet
  · simp only [processEntry, if_pos h1]
    exact h
  · by_cases h2 : e ∉ s.dir
    · simp only [processEntry, if_neg h1, if_pos h2]
      exact h
    · by_cases h3 : cfg.handlerOk e = true
      · simp only [processEntry, if_neg h1, if_neg h2, if_pos h3]
        intro hmem
        rcases List.mem_cons.mp hmem with rfl | hmem'
        · rw [hok] at h3
          exact Bool.noConfusion h3
        · exact h hmem'
      · simp only [processEntry, if_neg h1, if_neg h2, if_neg h3]
        exact h

/-- An unmarked, present entry whose handler fails is invoked, and (without
a failed directory) the state changes only by recording the invocation. -/
theorem processEntry_fail_invoke (cfg : PollCfg) (s : PollState) (p : List Char)
    (h1 : p ∉ s.processedSet) (h2 : p ∈ s.dir)
    (hok : cfg.handlerOk p = false) (hfd : cfg.failedDirSet = false) :
    processEntry cfg s p = { s with invoked := s.invoked ++ [p] } := by
  unfold processEntry
  rw [if_neg h1, if_neg (fun hn => hn h2), if_neg (by rw [hok]; exact Bool.noConfusion)]
  simp only [hfd, if_false, Bool.false_eq_true]

/-- Marked paths stay marked and are never re-invoked by the tick fold. -/
theorem foldl_marked (cfg : PollCfg) (p : List Char) :
    ∀ (entries : List (List Char)) (s : PollState), p ∈ s.processedSet →
      (entries.foldl (processEntry cfg) s).invoked.count p = s.invoked.count p ∧
      p ∈ (entries.foldl (processEntry cfg) s).processedSet := by
  intro entries
  induction entries with
  | nil => intro s h; exact ⟨rfl, h⟩
  | cons e rest ih =>
    intro s h
    rw [List.foldl_cons]
    by_cases he : e = p
    · subst he
      rw [processEntry_skip cfg s e h]
      exact ih s h
    · obtain ⟨hc, hm⟩ := ih (processEntry cfg s e) (processEntry_processedSet_mono cfg s e p h)
      exact ⟨by rw [hc, processEntry_count_ne cfg s e p he], hm⟩

/-- One entry adds p to the processed map only via a successful handler. -/
theorem processEntry_mark_ok (cfg : PollCfg) (s : PollState) (e p : List Char)
    (h : p ∈ (processEntry cfg s e).processedSet) :
    p ∈ s.processedSet ∨ cfg.handlerOk p = true := by
  by_cases h1 : e ∈ s.processedSet
  · simp only [processEntry, if_pos h1] at h
    exact Or.inl h
  · by_cases h2 : e ∉ s.dir
    · simp only [processEntry, if_neg h1, if_pos h2] at h
      exact Or.inl h
    · by_cases h3 : cfg.handlerOk e = true
      · simp only [processEntry, if_neg h1, if_neg h2, if_pos h3] at h
        rcases List.mem_cons.mp h with rfl | h'
        · exact Or.inr h3
        · exact Or.inl h'
      · simp only [processEntry, if_neg h1, if_neg h2, if_neg h3] at h
        exact Or.inl h

/-- The fold adds p to the processed map only via a successful handler. -/
theorem foldl_mark_ok (cfg : PollCfg) (p : List Char) :
    ∀ (entries : List (List Char)) (s : PollState),
      p ∈ (entries.foldl (processEntry cfg) s).processedSet →
      p ∈ s.processedSet ∨ cfg.handlerOk p = true := by
  intro entries
  induction entries with
  | nil => intro s h; exact Or.inl h
  | cons e rest ih =>
    intro s h
    rw [List.foldl_cons] at h
    rcases ih (processEntry cfg s e) h with h' | hok
    · exact processEntry_mark_ok cfg s e p h'
    · exact Or.inr hok

/-- Invocation counts never decrease across the fold. -/
theorem foldl_count_le (cfg : PollCfg) (p : List Char) :
    ∀ (entries : List (List Char)) (s : PollState),
      s.invoked.count p ≤ (entries.foldl (processEntry cfg) s).invoked.count p := by
  intro entries
  induction entries with
  | nil => intro s; exact le_refl _
  | cons e rest ih =>
    intro s
    rw [List.foldl_cons]
    exact le_trans (processEntry_count_le cfg s e p) (ih _)

/-- A failing path stays in the directory and unmarked across the fold. -/
theorem foldl_fail_keep (cfg : PollCfg) (p : List Char)
    (hok : cfg.handlerOk p = false) (hfd : cfg.failedDirSet = false) :
    ∀ (entries : List (List Char)) (s : PollState), p ∈ s.dir → p ∉ s.processedSet →
      p ∈ (entries.foldl (processEntry cfg) s).dir ∧
      p ∉ (entries.foldl (processEntry cfg) s).processedSet := by
  intro entries
  induction entries with
  | nil => intro s h1 h2; exact ⟨h1, h2⟩
  | cons e rest ih =>
    intro s h1 h2
    rw [List.foldl_cons]
    exact ih _ (processEntry_dir_keep cfg s e p hok hfd h1)
      (processEntry_not_marked cfg s e p hok h2)

/-- The fold invokes a present, unmarked, failing path at least once. -/
theorem foldl_fail_invoke (cfg : PollCfg) (p : List Char)
    (hok : cfg.handlerOk p = false) (hfd : cfg.failedDirSet = false) :
    ∀ (entries : List (List Char)) (s : PollState),
      p ∈ entries → p ∈ s.dir → p ∉ s.processedSet →
      s.invoked.count p + 1 ≤ (entries.foldl (processEntry cfg) s).invoked.count p := by
  intro entries
  induction entries with
  | nil => intro s h; cases h
  | cons e rest ih =>
    intro s hmem h1 h2
    rw [List.foldl_cons]
    by_cases he : e = p
    · subst he
      rw [processEntry_fail_invoke cfg s e h2 h1 hok hfd]
      have hle := foldl_count_le cfg e rest { s with invoked := s.invoked ++ [e] }
      have hstep : ({ s with invoked := s.invoked ++ [e] } : PollState).invoked.count e =
          s.invoked.count e + 1 := by simp [List.count_append]
      omega
    · have hmem' : p ∈ rest := by
        rcases List.mem_cons.mp hmem with h | h
        · exact absurd h.symm he
        · exact h
      have hcount := processEntry_count_ne cfg s e p he
      have hrec := ih (processEntry cfg s e) hmem'
        (processEntry_dir_keep cfg s e p hok hfd h1)
        (processEntry_not_marked cfg s e p hok h2)
      omega

/-- C2 counterexample: with no failed directory configured and a handler
that always fails, the single file "a.png" is handed to the handler again
on the second poll tick — it reached the claim's terminal state Failed on
the first tick but is revisited, because only success marks the path in the
processed map. -/
theorem failed_file_retry_counterexample :
    (pollTick ⟨false, false, fun _ => false⟩
      (pollTick ⟨false, false, fun _ => false⟩ ⟨[], [str "a.png"], []⟩)).invoked =
      [str "a.png", str "a.png"] := by
  decide

/-- C2 amended: within a process run, a successfully handled path is marked
in the in-memory processed map and never handed to the handler again by the
poll loop, and the map gains a path only through a successful handler; but
a path whose handler failed is not marked, and while the failed directory
is not configured it remains in the watch directory and is handed to the
handler again on every subsequent poll tick. -/
theorem watcher_state_amended :
    (∀ (cfg : PollCfg) (s : PollState) (p : List Char), p ∈ s.processedSet →
      (pollTick cfg s).invoked.count p = s.invoked.count p ∧
      p ∈ (pollTick cfg s).processedSet) ∧
    (∀ (cfg : PollCfg) (s : PollState) (p : List Char),
      p ∈ (pollTick cfg s).processedSet →
      p ∈ s.processedSet ∨ cfg.handlerOk p = true) ∧
    (∀ (cfg : PollCfg) (s : PollState) (p : List Char),
      cfg.handlerOk p = false → cfg.failedDirSet = false → isImageFile p = true →
      p ∈ s.dir → p ∉ s.processedSet →
      s.invoked.count p + 1 ≤ (pollTick cfg s).invoked.count p ∧
      p ∈ (pollTick cfg s).dir ∧ p ∉ (pollTick cfg s).processedSet) := by
  refine ⟨?_, ?_, ?_⟩
  · intro cfg s p h
    exact foldl_marked cfg p _ s h
  · intro cfg s p h
    exact foldl_mark_ok cfg p _ s h
  · intro cfg s p hok hfd himg h1 h2
    have hmem : p ∈ s.dir.filter isImageFile := List.mem_filter.mpr ⟨h1, himg⟩
    exact ⟨foldl_fail_invoke cfg p hok hfd _ s hmem h1 h2,
      (foldl_fail_keep cfg p hok hfd _ s h1 h2).1,
      (foldl_fail_keep cfg p hok hfd _ s h1 h2).2⟩

/-- Witness for the C2 amended theorem: a marked "a.png" is not re-invoked;
a path marked by a tick had a succeeding handler; an unmarked "a.png" with
a failing handler and no failed directory is invoked once more by a tick
and stays present and unmarked. -/
theorem watcher_state_amended_witness :
    ((pollTick ⟨false, false, fun _ => false⟩
        ⟨[str "a.png"], [str "a.png"], []⟩).invoked.count (str "a.png") =
      (⟨[str "a.png"], [str "a.png"], []⟩ : PollState).invoked.count (str "a.png") ∧
      str "a.png" ∈ (pollTick ⟨false, false, fun _ => false⟩
        ⟨[str "a.png"], [str "a.png"], []⟩).processedSet) ∧
    (str "a.png" ∈ (⟨[], [str "a.png"], []⟩ : PollState).processedSet ∨
      (⟨false, false, fun _ => true⟩ : PollCfg).handlerOk (str "a.png") = true) ∧
    ((⟨[], [str "a.png"], []⟩ : PollState).invoked.count (str "a.png") + 1 ≤
      (pollTick ⟨false, false, fun _ => false⟩
        ⟨[], [str "a.png"], []⟩).invoked.count (str "a.png") ∧
      str "a.png" ∈ (pollTick ⟨false, false, fun _ => false⟩ ⟨[], [str "a.png"], []⟩).dir ∧
      str "a.png" ∉ (pollTick ⟨false, false, fun _ => false⟩
        ⟨[], [str "a.png"], []⟩).processedSet) :=
  ⟨watcher_state_amended.1 ⟨false, false, fun _ => false⟩
      ⟨[str "a.png"], [str "a.png"], []⟩ (str "a.png") (by decide),
   watcher_state_amended.2.1 ⟨false, false, fun _ => true⟩
      ⟨[], [str "a.png"], []⟩ (str "a.png") (by decide),
   watcher_state_amended.2.2 ⟨false, false, fun _ => false⟩
      ⟨[], [str "a.png"], []⟩ (str "a.png") rfl rfl (by decide) (by decide) (by decide)⟩

end CloneHeroer
